import Mathlib

/-!
Verification of `cwlogs-writable` (`src/lib/index.js`), a Writable stream
that buffers log records and ships them in batches to AWS CloudWatch Logs.

The embedding below translates the relevant functions of
`CWLogsWritable.prototype` into Lean:

* log events and the batch planner `nextLogBatchSize`;
* record conversion `createLogEvent`;
* the mutable stream state (`queuedLogs`, `sequenceToken`, `writeQueued`,
  `_onErrorNextCbId`, the `filterWrite` replacement performed by
  `_handleError`) with `_write`, `clearQueue`, `_handleError` and
  `_nextAfterError` as state transformers;
* the branch structure of `_sendLogs` as an action-selection function;
* the retry loop of `_putLogEvents`;
* option validation and the constructor clamp for `maxBatchSize`;
* a small-step trace semantics for the dispatch/deliver/requeue cycle,
  used for the global ordering property.

Tokens returned by the destination are modelled as natural numbers
(they are opaque to the library), timestamps as integers (epoch millis).
-/

namespace CWLogsWritable

/-- A queued log event: `{message: string, timestamp: number}`. -/
structure LogEvent where
  message : String
  timestamp : Int
deriving Repr, DecidableEq

/-- Cost of one event in `nextLogBatchSize`:
`26 + this.getMessageSize(queuedLogs[i].message)` with the default
`getMessageSize` returning `message.length`. -/
def eventCost (e : LogEvent) : Nat :=
  26 + e.message.length

/-- Cumulative cost of a list of events. -/
def costSum : List LogEvent → Nat
  | [] => 0
  | e :: rest => eventCost e + costSum rest

/-- The `for` loop of `CWLogsWritable.prototype.nextLogBatchSize`,
carrying `sizeEstimate`, `batchCount` and the loop index `i`.
The body adds the cost of event `i` to `sizeEstimate`, breaks when
`sizeEstimate > maxBatchSize || batchCount >= maxBatchCount`, and
otherwise sets `batchCount = i + 1`. -/
def nextLoop (maxBatchSize maxBatchCount : Nat) :
    List LogEvent → Nat → Nat → Nat → Nat
  | [], _, batchCount, _ => batchCount
  | e :: rest, sizeEstimate, batchCount, i =>
    let s := sizeEstimate + eventCost e
    if maxBatchSize < s ∨ maxBatchCount ≤ batchCount then batchCount
    else nextLoop maxBatchSize maxBatchCount rest s (i + 1) (i + 1)

/-- `CWLogsWritable.prototype.nextLogBatchSize`: the loop starts with
`batchCount = 1`, `sizeEstimate = 0`, `i = 0`. -/
def nextLogBatchSize (maxBatchSize maxBatchCount : Nat)
    (queuedLogs : List LogEvent) : Nat :=
  nextLoop maxBatchSize maxBatchCount queuedLogs 0 1 0

/-- Specification-side helper: the number of leading events whose costs
greedily fit in `budget`. -/
def countFit (budget : Nat) : List LogEvent → Nat
  | [] => 0
  | e :: rest =>
    if budget < eventCost e then 0
    else countFit (budget - eventCost e) rest + 1

theorem countFit_le_length (budget : Nat) (q : List LogEvent) :
    countFit budget q ≤ q.length := by
  induction q generalizing budget with
  | nil => simp [countFit]
  | cons e rest ih =>
    simp only [countFit, List.length_cons]
    split
    · omega
    · have := ih (budget - eventCost e)
      omega

theorem costSum_take_countFit (budget : Nat) (q : List LogEvent) :
    costSum (q.take (countFit budget q)) ≤ budget := by
  induction q generalizing budget with
  | nil => simp [countFit, costSum]
  | cons e rest ih =>
    by_cases h : budget < eventCost e
    · simp [countFit, if_pos h, costSum]
    · have hb : eventCost e ≤ budget := by omega
      have := ih (budget - eventCost e)
      simp only [countFit, if_neg h, List.take_succ_cons, costSum]
      omega

theorem countFit_maximal (budget : Nat) (q : List LogEvent) (k : Nat)
    (hk : k ≤ q.length) (hcost : costSum (q.take k) ≤ budget) :
    k ≤ countFit budget q := by
  induction q generalizing budget k with
  | nil =>
    simp only [countFit]
    simp at hk
    omega
  | cons e rest ih =>
    match k with
    | 0 => exact Nat.zero_le _
    | k + 1 =>
      simp only [List.take_succ_cons, costSum] at hcost
      have hce : eventCost e ≤ budget := by omega
      simp only [countFit, if_neg (by omega : ¬ budget < eventCost e)]
      have hk' : k ≤ rest.length := by simpa using hk
      have := ih (budget - eventCost e) k hk' (by omega)
      omega

theorem countFit_all (budget : Nat) (q : List LogEvent)
    (h : costSum q ≤ budget) : countFit budget q = q.length := by
  have h1 := countFit_le_length budget q
  have h2 := countFit_maximal budget q q.length le_rfl (by simpa using h)
  omega

theorem costSum_take_mono (q : List LogEvent) (r k : Nat) (h : r ≤ k) :
    costSum (q.take r) ≤ costSum (q.take k) := by
  induction q generalizing r k with
  | nil => simp [costSum]
  | cons e rest ih =>
    match r, k with
    | 0, _ => simp [costSum]
    | r' + 1, k' + 1 =>
      simp only [List.take_succ_cons, costSum]
      have := ih r' k' (by omega)
      omega

theorem nextLoop_eq (maxBatchSize maxBatchCount : Nat)
    (rest : List LogEvent) :
    ∀ s n : Nat, 1 ≤ n → s ≤ maxBatchSize → n ≤ maxBatchCount →
      nextLoop maxBatchSize maxBatchCount rest s n n =
        min maxBatchCount (n + countFit (maxBatchSize - s) rest) := by
  induction rest with
  | nil =>
    intro s n _ _ hn
    simp only [nextLoop, countFit]
    omega
  | cons e rest ih =>
    intro s n hn1 hs hn
    simp only [nextLoop]
    by_cases hbreak : maxBatchSize < s + eventCost e ∨ maxBatchCount ≤ n
    · rw [if_pos hbreak]
      rcases hbreak with hsz | hcnt
      · have hcf : countFit (maxBatchSize - s) (e :: rest) = 0 := by
          simp only [countFit]
          rw [if_pos (by omega)]
        rw [hcf]
        omega
      · have hle : n + countFit (maxBatchSize - s) (e :: rest) ≥ maxBatchCount := by
          omega
        omega
    · rw [if_neg hbreak]
      push_neg at hbreak
      obtain ⟨hsz, hcnt⟩ := hbreak
      have hrec := ih (s + eventCost e) (n + 1) (by omega) (by omega) (by omega)
      rw [hrec]
      have hcf : countFit (maxBatchSize - s) (e :: rest) =
          countFit (maxBatchSize - (s + eventCost e)) rest + 1 := by
        simp only [countFit]
        rw [if_neg (by omega)]
        have hsub : maxBatchSize - s - eventCost e =
            maxBatchSize - (s + eventCost e) := by omega
        rw [hsub]
      rw [hcf]
      congr 1
      omega

/-- Closed form of the planner: for `maxBatchCount ≥ 1` it returns the
greedy fit count clamped into `[1, maxBatchCount]`. -/
theorem nextLogBatchSize_closed (maxBatchSize maxBatchCount : Nat)
    (q : List LogEvent) (hc : 1 ≤ maxBatchCount) :
    nextLogBatchSize maxBatchSize maxBatchCount q =
      max 1 (min maxBatchCount (countFit maxBatchSize q)) := by
  match q with
  | [] =>
    simp only [nextLogBatchSize, nextLoop, countFit]
    omega
  | e :: rest =>
    simp only [nextLogBatchSize, nextLoop]
    by_cases hbreak : maxBatchSize < 0 + eventCost e ∨ maxBatchCount ≤ 1
    · rw [if_pos hbreak]
      rcases hbreak with hsz | hcnt
      · have hcf : countFit maxBatchSize (e :: rest) = 0 := by
          simp only [countFit]
          rw [if_pos (by omega)]
        rw [hcf]
        omega
      · simp only [countFit]
        split
        · omega
        · omega
    · rw [if_neg hbreak]
      push_neg at hbreak
      obtain ⟨hsz, hcnt⟩ := hbreak
      have hrec := nextLoop_eq maxBatchSize maxBatchCount rest
        (0 + eventCost e) 1 le_rfl (by omega) (by omega)
      rw [hrec]
      have hcf : countFit maxBatchSize (e :: rest) =
          countFit (maxBatchSize - (0 + eventCost e)) rest + 1 := by
        simp only [countFit]
        rw [if_neg (by omega)]
        have hsub : maxBatchSize - eventCost e =
            maxBatchSize - (0 + eventCost e) := by omega
        rw [hsub]
      rw [hcf]
      omega

/-- A raw record passed to the stream. `nullRec` stands for `null` or
`undefined` (rejected by the default `filterWrite`); `str` is a plain text
record; `obj` is a structured record whose optional `time` field is
modelled as a numeric epoch-millis value (for a finite number `t`,
`new Date(t).getTime()` is `t` itself), with `payload` standing for the
record's remaining contents. -/
inductive LogRecord where
  | nullRec
  | str (s : String)
  | obj (time : Option Int) (payload : String)
deriving Repr, DecidableEq

/-- Model of `JSON.stringify` on a record, used by `createLogEvent` for
non-string records. The exact serialized text is irrelevant to the claims;
this model produces a JSON-shaped string from the record's contents. -/
def jsonStringify : LogRecord → String
  | .nullRec => "null"
  | .str s => "\x22" ++ s ++ "\x22"
  | .obj none payload => "\x7b" ++ payload ++ "\x7d"
  | .obj (some t) payload =>
      "\x7b\x22time\x22:" ++ toString t ++ "," ++ payload ++ "\x7d"

/-- `CWLogsWritable.prototype.createLogEvent`:
`message` is `rec` itself for a string and `JSON.stringify(rec)` otherwise;
`timestamp` is `typeof rec === 'object' && rec.time ? new
Date(rec.time).getTime() : Date.now()`. With numeric `time` fields the
truthiness test `rec.time` holds exactly when the value is nonzero, and
`new Date(t).getTime() = t`. `now` stands for `Date.now()`.
(`nullRec` never reaches this function under the default filter.) -/
def createLogEvent (now : Int) (rec : LogRecord) : LogEvent :=
  { message :=
      match rec with
      | .str s => s
      | r => jsonStringify r
    timestamp :=
      match rec with
      | .obj (some t) _ => if t ≠ 0 then t else now
      | _ => now }

/-- The mutable state of a `CWLogsWritable` instance:
`_onErrorNextCbId` (initialized to 1), `sequenceToken` (initialized to
`null`), `writeQueued`, `queuedLogs`, whether `filterWrite` has been
replaced by `_falseFilterWrite` (done by `_handleError`), the number of
`'error'` events emitted, and whether `_scheduleSendLogs` has scheduled a
cycle. -/
structure WState where
  onErrorNextCbId : Nat
  sequenceToken : Option Nat
  writeQueued : Bool
  queuedLogs : List LogEvent
  filterDisabled : Bool
  emittedErrors : Nat
  scheduled : Bool
deriving Repr, DecidableEq

/-- State right after the constructor runs. -/
def initState : WState :=
  { onErrorNextCbId := 1
    sequenceToken := none
    writeQueued := false
    queuedLogs := []
    filterDisabled := false
    emittedErrors := 0
    scheduled := false }

/-- `CWLogsWritable.prototype.filterWrite` (default: `rec != null`),
taking into account its permanent replacement by
`CWLogsWritable._falseFilterWrite` after a fatal error. -/
def filterWrite (st : WState) (rec : LogRecord) : Bool :=
  if st.filterDisabled then false
  else
    match rec with
    | .nullRec => false
    | _ => true

/-- `CWLogsWritable.prototype._scheduleSendLogs`: schedules `_sendLogs`
(via `process.nextTick` or `setTimeout`). -/
def scheduleSendLogs (st : WState) : WState :=
  { st with scheduled := true }

/-- `CWLogsWritable.prototype._write`: if `filterWrite` accepts the
record, push `createLogEvent(record)` onto `queuedLogs` and, if no write
is queued yet, set `writeQueued` and schedule a send cycle. -/
def write (now : Int) (st : WState) (rec : LogRecord) : WState :=
  if filterWrite st rec then
    let st1 := { st with queuedLogs := st.queuedLogs ++ [createLogEvent now rec] }
    if st1.writeQueued then st1
    else scheduleSendLogs { st1 with writeQueued := true }
  else st

/-- `CWLogsWritable.prototype.clearQueue`: detaches and returns the
current queue, replacing it with an empty one. -/
def clearQueue (st : WState) : WState × List LogEvent :=
  ({ st with queuedLogs := [] }, st.queuedLogs)

/-- `CWLogsWritable.prototype._handleError`: emit an `'error'` event,
clear the queue, and replace `filterWrite` with `_falseFilterWrite`. -/
def handleError (st : WState) : WState :=
  let st1 := { st with emittedErrors := st.emittedErrors + 1 }
  let st2 := (clearQueue st1).1
  { st2 with filterDisabled := true }

/-- The argument the recovery hook passes to `next`: nothing, an `Error`,
or an array of log events. -/
inductive NextArg where
  | noArg
  | err
  | events (l : List LogEvent)
deriving Repr, DecidableEq

/-- `CWLogsWritable.prototype._nextAfterError`: aborts (state unchanged)
unless `cbId` equals the current `_onErrorNextCbId`; otherwise increments
the counter, resets `sequenceToken` to `null`, and then either runs
`_handleError` (Error argument), returns the given events to the head of
the queue and reschedules, or just reschedules. -/
def nextAfterError (st : WState) (cbId : Nat) (arg : NextArg) : WState :=
  if st.onErrorNextCbId ≠ cbId then st
  else
    let st1 := { st with
      onErrorNextCbId := st.onErrorNextCbId + 1
      sequenceToken := none }
    match arg with
    | .err => handleError st1
    | .events l => scheduleSendLogs { st1 with queuedLogs := l ++ st1.queuedLogs }
    | .noArg => scheduleSendLogs st1

/-- The epoch registration `_sendLogs` performs before invoking `onError`
(`++this._onErrorNextCbId` and `this._nextAfterError.bind(this,
this._onErrorNextCbId)`): the counter is incremented once per failure
occurrence and the new value is bound into the `next` callback. Returns
the updated state and the bound id. -/
def registerFailure (st : WState) : WState × Nat :=
  ({ st with onErrorNextCbId := st.onErrorNextCbId + 1 },
   st.onErrorNextCbId + 1)

/-- The action `_sendLogs` takes when a scheduled cycle fires. -/
inductive SendAction where
  | acquireToken
  | goIdle
  | send (batch rest : List LogEvent)
deriving Repr, DecidableEq

/-- Branch structure of `CWLogsWritable.prototype._sendLogs`: first, if
`sequenceToken === null`, call `_getSequenceToken` (a destination call);
otherwise, if the queue is empty, reset `writeQueued` and stop (idle);
otherwise remove the next `nextLogBatchSize` events from the queue head
and send them via `_putLogEvents`. -/
def sendLogsAction (maxBatchSize maxBatchCount : Nat)
    (sequenceToken : Option Nat) (queuedLogs : List LogEvent) : SendAction :=
  match sequenceToken with
  | none => .acquireToken
  | some _ =>
    if queuedLogs.length = 0 then .goIdle
    else
      let batchCount := nextLogBatchSize maxBatchSize maxBatchCount queuedLogs
      .send (queuedLogs.take batchCount) (queuedLogs.drop batchCount)

/-- Result of `_putLogEvents`: success or surfaced error, with the total
number of `putLogEvents` attempts made. -/
inductive PutOutcome where
  | ok (attempts : Nat)
  | err (attempts : Nat) (retryable : Bool)
deriving Repr, DecidableEq

/-- The retry loop of `CWLogsWritable.prototype._putLogEvents`, run
against a destination that fails on its first `failN` attempts (each
failure flagged retryable iff `failRetryable`) and succeeds on every
later attempt. `retries` is the loop counter (starts at 0); on a failure
the loop re-attempts iff `err.retryable && retryableMax > retries++`,
and otherwise surfaces the error via `cb(err)`. -/
def putLogEventsLoop (failN : Nat) (failRetryable : Bool)
    (retryableMax retries : Nat) : PutOutcome :=
  if h : retries < failN then
    if failRetryable = true ∧ retries < retryableMax then
      putLogEventsLoop failN failRetryable retryableMax (retries + 1)
    else PutOutcome.err (retries + 1) failRetryable
  else PutOutcome.ok (retries + 1)
termination_by failN - retries
decreasing_by omega

/-- The `maxBatchSize` clause of
`CWLogsWritable.prototype.validateOptions`: an absent option passes; a
present (finite numeric, modelled as `Int`) option must satisfy
`256 ≤ v ≤ 1048576`, otherwise the constructor throws. -/
def validateMaxBatchSize : Option Int → Bool
  | none => true
  | some v => decide (256 ≤ v) && decide (v ≤ 1048576)

/-- The constructor assignment for `this.maxBatchSize`:
`Math.min(1048576, Math.max(1024, options.maxBatchSize))` when the option
is a number, `1048576` otherwise. -/
def constructMaxBatchSize : Option Int → Int
  | none => 1048576
  | some v => min 1048576 (max 1024 v)

/-- Ghost-instrumented state for the global ordering property: the
current queue, the batch removed for the in-flight cycle (if any), the
successful batches in order, and the full enqueue history. -/
structure TraceState where
  queue : List LogEvent
  inflight : Option (List LogEvent)
  delivered : List (List LogEvent)
  enqueued : List LogEvent
deriving Repr, DecidableEq

/-- Initial trace state: empty queue, nothing in flight. -/
def initTrace : TraceState :=
  { queue := [], inflight := none, delivered := [], enqueued := [] }

/-- Small-step semantics of the delivery pipeline, restricted to the
executions assumed by the ordering claim (no fail-stop; recovery always
resumes re-queuing exactly the failed events):
* `write`: `_write` appends an accepted record's event to the queue tail;
* `dispatch`: `_sendLogs` removes the first `nextLogBatchSize` events for
  one `_putLogEvents` cycle;
* `deliver`: the cycle succeeds, appending its batch to the delivered
  history;
* `requeue`: the cycle fails, and `_nextAfterError` with the failed
  events concatenates them back ahead of the current queue
  (`errOrLogEvents.concat(this.queuedLogs)`). -/
inductive PStep (maxBatchSize maxBatchCount : Nat) :
    TraceState → TraceState → Prop where
  | write (s : TraceState) (e : LogEvent) :
      PStep maxBatchSize maxBatchCount s
        { s with queue := s.queue ++ [e], enqueued := s.enqueued ++ [e] }
  | dispatch (s : TraceState) (h : s.inflight = none) (hq : s.queue ≠ []) :
      PStep maxBatchSize maxBatchCount s
        { s with
          inflight :=
            some (s.queue.take (nextLogBatchSize maxBatchSize maxBatchCount s.queue))
          queue := s.queue.drop (nextLogBatchSize maxBatchSize maxBatchCount s.queue) }
  | deliver (s : TraceState) (b : List LogEvent) (h : s.inflight = some b) :
      PStep maxBatchSize maxBatchCount s
        { s with delivered := s.delivered ++ [b], inflight := none }
  | requeue (s : TraceState) (b : List LogEvent) (h : s.inflight = some b) :
      PStep maxBatchSize maxBatchCount s
        { s with queue := b ++ s.queue, inflight := none }

/-- States reachable from the initial state. -/
def Reachable (maxBatchSize maxBatchCount : Nat) (s : TraceState) : Prop :=
  Relation.ReflTransGen (PStep maxBatchSize maxBatchCount) initTrace s

end CWLogsWritable

open CWLogsWritable

/-- C2: `nextLogBatchSize` is deterministic (it is a pure function of the
queue snapshot and the caps) and, for a non-empty queue and
`maxBatchCount ≥ 1` (the constructor clamps it into `[1, 10000]`),
returns the largest prefix length whose cumulative cost
(26 bytes overhead plus message size per event) fits in `maxBatchSize`
and whose length fits in `maxBatchCount`; it returns the full queue
length when the whole queue fits within both caps, and it returns 1
(never 0) when the first event's own cost alone exceeds `maxBatchSize`.
The last conjunct records admissibility: the chosen prefix's cumulative
cost fits in `maxBatchSize`, except in the forced oversized-singleton
case, where the result is 1 and already the first event overflows. -/
theorem nextLogBatchSize_correct (maxBatchSize maxBatchCount : Nat)
    (q : List LogEvent) (hq : q ≠ []) (hc : 1 ≤ maxBatchCount) :
    1 ≤ nextLogBatchSize maxBatchSize maxBatchCount q ∧
    nextLogBatchSize maxBatchSize maxBatchCount q ≤ q.length ∧
    nextLogBatchSize maxBatchSize maxBatchCount q ≤ maxBatchCount ∧
    (∀ k, k ≤ q.length → k ≤ maxBatchCount →
      costSum (q.take k) ≤ maxBatchSize →
      k ≤ nextLogBatchSize maxBatchSize maxBatchCount q) ∧
    (q.length ≤ maxBatchCount → costSum q ≤ maxBatchSize →
      nextLogBatchSize maxBatchSize maxBatchCount q = q.length) ∧
    (∀ e rest, q = e :: rest → maxBatchSize < eventCost e →
      nextLogBatchSize maxBatchSize maxBatchCount q = 1) ∧
    (costSum (q.take (nextLogBatchSize maxBatchSize maxBatchCount q))
        ≤ maxBatchSize ∨
      (nextLogBatchSize maxBatchSize maxBatchCount q = 1 ∧
        maxBatchSize < costSum (q.take 1))) := by
  rw [nextLogBatchSize_closed maxBatchSize maxBatchCount q hc]
  have hlen : 1 ≤ q.length := List.length_pos.mpr hq
  have hcf := countFit_le_length maxBatchSize q
  refine ⟨by omega, by omega, by omega, ?_, ?_, ?_, ?_⟩
  · intro k hk1 hk2 hk3
    have := countFit_maximal maxBatchSize q k hk1 hk3
    omega
  · intro h1 h2
    have := countFit_all maxBatchSize q h2
    omega
  · intro e rest heq hbig
    subst heq
    have h0 : countFit maxBatchSize (e :: rest) = 0 := by
      simp only [countFit]
      rw [if_pos hbig]
    rw [h0]
    omega
  · cases q with
    | nil => exact absurd rfl hq
    | cons e rest =>
      by_cases hbig : maxBatchSize < eventCost e
      · right
        have h0 : countFit maxBatchSize (e :: rest) = 0 := by
          simp only [countFit]
          rw [if_pos hbig]
        refine ⟨by rw [h0]; omega, ?_⟩
        simp only [List.take_succ_cons, List.take_zero, costSum]
        omega
      · left
        have h1 : 1 ≤ countFit maxBatchSize (e :: rest) := by
          simp only [countFit]
          rw [if_neg hbig]
          omega
        have hr : max 1 (min maxBatchCount (countFit maxBatchSize (e :: rest)))
            ≤ countFit maxBatchSize (e :: rest) := by omega
        exact le_trans (costSum_take_mono (e :: rest) _ _ hr)
          (costSum_take_countFit maxBatchSize (e :: rest))

/-- Witness for C2 at a concrete queue: one event of message "ab"
(cost 28) with caps 100 bytes / 10 events. -/
theorem nextLogBatchSize_correct_witness :
    nextLogBatchSize 100 10 [⟨"ab", 0⟩] = 1 :=
  (nextLogBatchSize_correct 100 10 [⟨"ab", 0⟩] (List.cons_ne_nil _ _)
    (by decide)).2.2.2.2.1 (by decide) (by decide)

/-- C10: on the empty queue snapshot `nextLogBatchSize` returns 1, not 0
(the "largest prefix within the caps" reading would give 0); the delivery
cycle never consults the planner on an empty queue, because `_sendLogs`
(here with a non-null token) checks queue emptiness first and goes idle. -/
theorem nextLogBatchSize_empty (maxBatchSize maxBatchCount t : Nat) :
    nextLogBatchSize maxBatchSize maxBatchCount [] = 1 ∧
    sendLogsAction maxBatchSize maxBatchCount (some t) [] = SendAction.goIdle :=
  ⟨rfl, rfl⟩

/-- C6 counterexample: a cycle firing with an empty queue and a null
sequence token does NOT transition directly back to Idle: `_sendLogs`
tests `sequenceToken === null` before testing queue emptiness, so it
calls `_getSequenceToken` (a destination call) instead. -/
theorem sendLogs_empty_queue_null_token_cex :
    sendLogsAction 1048576 10000 none [] = SendAction.acquireToken ∧
    SendAction.acquireToken ≠ SendAction.goIdle :=
  ⟨rfl, by decide⟩

/-- C6 (amended): when a cycle fires, the null-token check precedes the
emptiness check: a null token always routes to token acquisition, even on
an empty queue; the direct transition back to Idle (no destination call)
happens exactly when the token is non-null and the queue is empty, and
with a non-null token and non-empty queue the planner's prefix is sent. -/
theorem sendLogs_cycle_branches (maxBatchSize maxBatchCount : Nat)
    (q : List LogEvent) (t : Nat) :
    sendLogsAction maxBatchSize maxBatchCount none q = SendAction.acquireToken ∧
    (q = [] → sendLogsAction maxBatchSize maxBatchCount (some t) q
      = SendAction.goIdle) ∧
    (q ≠ [] → sendLogsAction maxBatchSize maxBatchCount (some t) q
      = SendAction.send
          (q.take (nextLogBatchSize maxBatchSize maxBatchCount q))
          (q.drop (nextLogBatchSize maxBatchSize maxBatchCount q))) := by
  refine ⟨rfl, ?_, ?_⟩
  · intro h
    subst h
    rfl
  · intro h
    have hpos : q.length ≠ 0 := by
      have := List.length_pos.mpr h
      omega
    simp [sendLogsAction, hpos]

/-- Witness for C6 (amended) at the empty queue with a present token. -/
theorem sendLogs_cycle_branches_witness :
    sendLogsAction 1048576 10000 (some 0) [] = SendAction.goIdle :=
  (sendLogs_cycle_branches 1048576 10000 [] 0).2.1 rfl

/-- C7: configuring `maxBatchSize: 256` passes `validateOptions` (whose
documented range is 256 to 1048576), yet the constructor clamp
`Math.min(1048576, Math.max(1024, v))` makes the batch planner use 1024
instead of the configured 256 — the code contradicts its own validator. -/
theorem maxBatchSize_clamp_bug :
    validateMaxBatchSize (some 256) = true ∧
    constructMaxBatchSize (some 256) = 1024 ∧
    (1024 : Int) ≠ 256 := by
  refine ⟨by decide, by decide, by decide⟩

theorem putLoop_ok (failN retryableMax r : Nat) (h1 : r ≤ failN)
    (h2 : failN ≤ retryableMax) :
    putLogEventsLoop failN true retryableMax r = PutOutcome.ok (failN + 1) := by
  unfold putLogEventsLoop
  by_cases h : r < failN
  · rw [dif_pos h, if_pos ⟨rfl, by omega⟩]
    exact putLoop_ok failN retryableMax (r + 1) (by omega) h2
  · rw [dif_neg h]
    have hr : r = failN := by omega
    rw [hr]
termination_by failN - r

theorem putLoop_err (failN retryableMax r : Nat) (h1 : r ≤ retryableMax)
    (h2 : retryableMax < failN) :
    putLogEventsLoop failN true retryableMax r
      = PutOutcome.err (retryableMax + 1) true := by
  unfold putLogEventsLoop
  rw [dif_pos (by omega : r < failN)]
  by_cases h : r < retryableMax
  · rw [if_pos ⟨rfl, h⟩]
    exact putLoop_err failN retryableMax (r + 1) (by omega) h2
  · rw [if_neg (fun hc => h hc.2)]
    have hr : r = retryableMax := by omega
    rw [hr]
termination_by retryableMax - r

/-- C3: against a destination failing retryably on exactly the first `N`
attempts then succeeding, `_putLogEvents` attempts the send `N + 1` times
and succeeds when `retryableMax ≥ N`; when `retryableMax < N` it attempts
exactly `retryableMax + 1` times and surfaces the failure unmodified
(still flagged retryable) to the recovery hook; a non-retryable failure
is surfaced after a single attempt, with no re-attempt. -/
theorem putLogEvents_attempt_counts (N retryableMax : Nat) (hN : 1 ≤ N) :
    (N ≤ retryableMax →
      putLogEventsLoop N true retryableMax 0 = PutOutcome.ok (N + 1)) ∧
    (retryableMax < N →
      putLogEventsLoop N true retryableMax 0
        = PutOutcome.err (retryableMax + 1) true) ∧
    putLogEventsLoop N false retryableMax 0 = PutOutcome.err 1 false := by
  refine ⟨?_, ?_, ?_⟩
  · intro h
    exact putLoop_ok N retryableMax 0 (by omega) h
  · intro h
    exact putLoop_err N retryableMax 0 (by omega) h
  · unfold putLogEventsLoop
    rw [dif_pos (by omega : 0 < N), if_neg (by simp)]

/-- Witness for C3: two consecutive retryable failures with
`retryableMax = 3` succeed on the third attempt; with `retryableMax = 1`
the error surfaces after two attempts; a non-retryable failure surfaces
after one attempt. -/
theorem putLogEvents_attempt_counts_witness :
    putLogEventsLoop 2 true 3 0 = PutOutcome.ok 3 ∧
    putLogEventsLoop 2 true 1 0 = PutOutcome.err 2 true ∧
    putLogEventsLoop 2 false 3 0 = PutOutcome.err 1 false :=
  ⟨(putLogEvents_attempt_counts 2 3 (by decide)).1 (by decide),
   (putLogEvents_attempt_counts 2 1 (by decide)).2.1 (by decide),
   (putLogEvents_attempt_counts 2 3 (by decide)).2.2⟩

theorem write_disabled (now : Int) (st : WState) (rec : LogRecord)
    (h : st.filterDisabled = true) : write now st rec = st := by
  simp [write, filterWrite, h]

theorem foldl_write_disabled (l : List (Int × LogRecord)) (st : WState)
    (h : st.filterDisabled = true) :
    l.foldl (fun s p => write p.1 s p.2) st = st := by
  induction l with
  | nil => rfl
  | cons p rest ih =>
    rw [List.foldl_cons, write_disabled p.1 st p.2 h]
    exact ih

/-- C4: when the recovery hook resumes with an Error, `_nextAfterError`
runs `_handleError`: an `'error'` event is emitted, the queue is cleared,
and `filterWrite` is permanently replaced by `_falseFilterWrite`, so any
single subsequent `_write` leaves the state untouched and after any
sequence of further `_write` calls the queue is still empty. -/
theorem resume_error_fail_stop (st : WState) (now : Int) (rec : LogRecord)
    (recs : List (Int × LogRecord)) :
    (nextAfterError st st.onErrorNextCbId NextArg.err).emittedErrors
      = st.emittedErrors + 1 ∧
    (nextAfterError st st.onErrorNextCbId NextArg.err).queuedLogs = [] ∧
    (nextAfterError st st.onErrorNextCbId NextArg.err).filterDisabled = true ∧
    write now (nextAfterError st st.onErrorNextCbId NextArg.err) rec
      = nextAfterError st st.onErrorNextCbId NextArg.err ∧
    (recs.foldl (fun s p => write p.1 s p.2)
      (nextAfterError st st.onErrorNextCbId NextArg.err)).queuedLogs = [] := by
  have hstep : nextAfterError st st.onErrorNextCbId NextArg.err
      = handleError { st with
          onErrorNextCbId := st.onErrorNextCbId + 1
          sequenceToken := none } := by
    simp [nextAfterError]
  have hdis : (nextAfterError st st.onErrorNextCbId NextArg.err).filterDisabled
      = true := by
    rw [hstep]
    rfl
  refine ⟨by rw [hstep]; rfl, by rw [hstep]; rfl, hdis, write_disabled _ _ _ hdis, ?_⟩
  rw [foldl_write_disabled recs _ hdis, hstep]
  rfl

/-- C5: at most one invocation of the `next` callback bound for a failure
has an effect. The failure registration in `_sendLogs` increments
`_onErrorNextCbId` and binds the new value into the callback; any
`_nextAfterError` call whose bound id differs from the current counter
returns with the state unchanged; an honored call increments the counter
again, so a second call (or a stale call from an earlier failure) with
the same bound id is ignored. -/
theorem nextAfterError_at_most_once (st : WState) (cbId : Nat)
    (arg arg2 : NextArg) :
    (registerFailure st).2 = (registerFailure st).1.onErrorNextCbId ∧
    (cbId ≠ st.onErrorNextCbId → nextAfterError st cbId arg = st) ∧
    (nextAfterError st st.onErrorNextCbId arg).onErrorNextCbId
      = st.onErrorNextCbId + 1 ∧
    nextAfterError (nextAfterError st st.onErrorNextCbId arg)
        st.onErrorNextCbId arg2
      = nextAfterError st st.onErrorNextCbId arg := by
  have hmiss : ∀ (s : WState) (c : Nat) (a : NextArg),
      c ≠ s.onErrorNextCbId → nextAfterError s c a = s := by
    intro s c a hne
    rw [nextAfterError, if_pos (fun he => hne he.symm)]
  have hbump : ∀ a : NextArg,
      (nextAfterError st st.onErrorNextCbId a).onErrorNextCbId
        = st.onErrorNextCbId + 1 := by
    intro a
    cases a <;>
      simp [nextAfterError, handleError, clearQueue, scheduleSendLogs]
  refine ⟨rfl, hmiss st cbId arg, hbump arg, ?_⟩
  apply hmiss
  rw [hbump arg]
  omega

/-- Witness for C5: in the initial state (counter 1), a resume call bound
to a stale id 5 is ignored; after an honored call the counter is 2 and
re-invoking with the old id 1 changes nothing. -/
theorem nextAfterError_at_most_once_witness :
    nextAfterError initState 5 NextArg.noArg = initState ∧
    (nextAfterError initState 1 NextArg.noArg).onErrorNextCbId = 2 ∧
    nextAfterError (nextAfterError initState 1 NextArg.noArg) 1 NextArg.noArg
      = nextAfterError initState 1 NextArg.noArg :=
  ⟨(nextAfterError_at_most_once initState 5 NextArg.noArg NextArg.noArg).2.1
      (by decide),
   (nextAfterError_at_most_once initState 1 NextArg.noArg NextArg.noArg).2.2.1,
   (nextAfterError_at_most_once initState 1 NextArg.noArg NextArg.noArg).2.2.2⟩

/-- C8: when the recovery hook resumes with an array of log events,
`_nextAfterError` concatenates them ahead of everything already queued
(preserving their relative order), the sequence token is null at that
point (it was just reset), a new cycle is scheduled, and that cycle's
first action is token acquisition, not sending. -/
theorem resume_events_requeue (maxBatchSize maxBatchCount : Nat)
    (st : WState) (l : List LogEvent) :
    (nextAfterError st st.onErrorNextCbId (NextArg.events l)).queuedLogs
      = l ++ st.queuedLogs ∧
    (nextAfterError st st.onErrorNextCbId (NextArg.events l)).sequenceToken
      = none ∧
    (nextAfterError st st.onErrorNextCbId (NextArg.events l)).scheduled
      = true ∧
    sendLogsAction maxBatchSize maxBatchCount
      (nextAfterError st st.onErrorNextCbId (NextArg.events l)).sequenceToken
      (nextAfterError st st.onErrorNextCbId (NextArg.events l)).queuedLogs
      = SendAction.acquireToken := by
  have hstep : nextAfterError st st.onErrorNextCbId (NextArg.events l)
      = scheduleSendLogs { st with
          onErrorNextCbId := st.onErrorNextCbId + 1
          sequenceToken := none
          queuedLogs := l ++ st.queuedLogs } := by
    simp [nextAfterError]
  refine ⟨by rw [hstep]; rfl, by rw [hstep]; rfl, by rw [hstep]; rfl, ?_⟩
  rw [hstep]
  rfl

/-- C9 counterexample: a structured record whose `time` field is present
with value 0 (and `new Date(0).getTime()` is 0) is nevertheless stamped
with the current time (here 123): `createLogEvent` tests the field for
truthiness (`rec.time ?`), not presence, so the claim "parsed from the
record's explicit time field whenever that field is present" fails. -/
theorem createLogEvent_time_zero_cex :
    (createLogEvent 123 (LogRecord.obj (some 0) "x")).timestamp = 123 ∧
    (123 : Int) ≠ 0 := by
  refine ⟨?_, by decide⟩
  simp [createLogEvent]

/-- C9 (amended): for every record accepted by the ingestion filter, the
created LogEvent has `message` equal to the record itself when the record
is text and to its serialized text otherwise, and has `timestamp` parsed
from the record's explicit `time` field whenever that field is present
and truthy (e.g. a nonzero number), else the current time. -/
theorem createLogEvent_spec (now : Int) (s payload : String) (t : Int)
    (time : Option Int) :
    createLogEvent now (LogRecord.str s) = ⟨s, now⟩ ∧
    (createLogEvent now (LogRecord.obj time payload)).message
      = jsonStringify (LogRecord.obj time payload) ∧
    (t ≠ 0 →
      (createLogEvent now (LogRecord.obj (some t) payload)).timestamp = t) ∧
    (createLogEvent now (LogRecord.obj none payload)).timestamp = now ∧
    (createLogEvent now (LogRecord.obj (some 0) payload)).timestamp = now := by
  refine ⟨rfl, rfl, ?_, rfl, ?_⟩
  · intro h
    simp [createLogEvent, h]
  · simp [createLogEvent]

/-- Witness for C9 (amended): a record with truthy time 7 is stamped 7
even though the current time is 5. -/
theorem createLogEvent_spec_witness :
    (createLogEvent 5 (LogRecord.obj (some 7) "p")).timestamp = 7 :=
  (createLogEvent_spec 5 "" "p" 7 (some 7)).2.2.1 (by decide)

/-- C1: in every reachable state of the delivery pipeline (no fail-stop,
recovery always re-queuing exactly the failed events at the queue head),
the concatenation of the batches handed to successive successful
`sendBatch` (`putLogEvents`) cycles, followed by the in-flight batch and
the remaining queue, equals the original enqueue order. In particular
once the queue is drained the delivered concatenation is exactly the
enqueue order, and events re-inserted by recovery sit ahead of all
later-enqueued events. -/
theorem ordering_invariant (maxBatchSize maxBatchCount : Nat)
    (s : TraceState) (h : Reachable maxBatchSize maxBatchCount s) :
    s.delivered.flatten ++ s.inflight.getD [] ++ s.queue = s.enqueued := by
  induction h with
  | refl => rfl
  | tail hr step ih =>
    cases step with
    | write e =>
      simp only [List.append_assoc] at ih ⊢
      rw [← ih]
      simp [List.append_assoc]
    | dispatch hs hq =>
      rw [hs] at ih
      simp only [Option.getD_none, List.append_nil, List.nil_append] at ih
      simp only [Option.getD_some, List.append_assoc, List.take_append_drop]
      simpa using ih
    | deliver b hb =>
      rw [hb] at ih
      simp only [Option.getD_some] at ih
      simp only [List.flatten_append, Option.getD_none, List.append_nil,
        List.flatten, List.append_assoc]
      simpa [List.append_assoc] using ih
    | requeue b hb =>
      rw [hb] at ih
      simp only [Option.getD_some] at ih
      simp only [Option.getD_none, List.nil_append, List.append_assoc]
      simpa [List.append_assoc] using ih

/-- Witness for C1: the trace enqueue "a", enqueue "b", dispatch both as
one batch, deliver successfully; the delivered concatenation equals the
enqueue order. -/
theorem ordering_invariant_witness :
    ({ queue := [], inflight := none,
       delivered := [[⟨"a", 0⟩, ⟨"b", 0⟩]],
       enqueued := [⟨"a", 0⟩, ⟨"b", 0⟩] } : TraceState).delivered.flatten
      ++ ({ queue := [], inflight := none,
            delivered := [[⟨"a", 0⟩, ⟨"b", 0⟩]],
            enqueued := [⟨"a", 0⟩, ⟨"b", 0⟩] } : TraceState).inflight.getD []
      ++ ({ queue := [], inflight := none,
            delivered := [[⟨"a", 0⟩, ⟨"b", 0⟩]],
            enqueued := [⟨"a", 0⟩, ⟨"b", 0⟩] } : TraceState).queue
    = ({ queue := [], inflight := none,
         delivered := [[⟨"a", 0⟩, ⟨"b", 0⟩]],
         enqueued := [⟨"a", 0⟩, ⟨"b", 0⟩] } : TraceState).enqueued := by
  apply ordering_invariant 1048576 10000
  have t1 : PStep 1048576 10000 initTrace
      { queue := [⟨"a", 0⟩], inflight := none, delivered := [],
        enqueued := [⟨"a", 0⟩] } :=
    PStep.write initTrace ⟨"a", 0⟩
  have t2 : PStep 1048576 10000
      { queue := [⟨"a", 0⟩], inflight := none, delivered := [],
        enqueued := [⟨"a", 0⟩] }
      { queue := [⟨"a", 0⟩, ⟨"b", 0⟩], inflight := none, delivered := [],
        enqueued := [⟨"a", 0⟩, ⟨"b", 0⟩] } :=
    PStep.write _ ⟨"b", 0⟩
  have t3 : PStep 1048576 10000
      { queue := [⟨"a", 0⟩, ⟨"b", 0⟩], inflight := none, delivered := [],
        enqueued := [⟨"a", 0⟩, ⟨"b", 0⟩] }
      { queue := [], inflight := some [⟨"a", 0⟩, ⟨"b", 0⟩], delivered := [],
        enqueued := [⟨"a", 0⟩, ⟨"b", 0⟩] } := by
    have hk : nextLogBatchSize 1048576 10000
        [(⟨"a", 0⟩ : LogEvent), ⟨"b", 0⟩] = 2 := by decide
    have := @PStep.dispatch 1048576 10000
      { queue := [⟨"a", 0⟩, ⟨"b", 0⟩], inflight := none, delivered := [],
        enqueued := [⟨"a", 0⟩, ⟨"b", 0⟩] } rfl (by simp)
    rw [hk] at this
    exact this
  have t4 : PStep 1048576 10000
      { queue := [], inflight := some [⟨"a", 0⟩, ⟨"b", 0⟩], delivered := [],
        enqueued := [⟨"a", 0⟩, ⟨"b", 0⟩] }
      { queue := [], inflight := none,
        delivered := [[⟨"a", 0⟩, ⟨"b", 0⟩]],
        enqueued := [⟨"a", 0⟩, ⟨"b", 0⟩] } :=
    PStep.deliver _ [⟨"a", 0⟩, ⟨"b", 0⟩] rfl
  exact Relation.ReflTransGen.tail
    (Relation.ReflTransGen.tail
      (Relation.ReflTransGen.tail (Relation.ReflTransGen.single t1) t2) t3) t4
